import Mathlib

/-!
# Matcher kinds: `v2/pkg/operators/matchers/matchers_types.go`

A shallow embedding of the matcher-type enumeration, its string table, the
normalising parser, and the holder that carries a matcher type through YAML
and JSON, followed by theorems about them.

Conventions of the embedding.

* A Go `string` is a Lean `String`, read as its sequence of runes
  (`String.data`); the development is about well-formed UTF-8 text.
* `MatcherType` is Go's `int`; the codes in play are tiny, so it is `Int`.
* A Go `map` is an association list; `MatcherTypes` lists the entries in the
  order of the composite literal. A `range` over the map is a scan of an
  entry list that is handed to the loop explicitly.
* A Go `(value, error)` result is a pair whose second component is
  `Option GoError`, `none` standing for `nil`.
* `unicode.ToLower` consults the case tables of the Go toolchain for runes
  above `MaxASCII`. Those tables are data of the toolchain, so the
  embedding takes them as the parameter `caseTable`.
-/

namespace Matchers

/-! ## The fragments of the Go standard library that the file calls -/

/-- A Go `string`. -/
abbrev GoString := String

/-- Go `error` values met by this package: the ones built by `errors.New`,
which carry their text, and the ones handed back by a decoder callback. -/
inductive GoError where
  | errorString (text : GoString)
  | decoder (detail : GoString)
  deriving DecidableEq, Repr

/-- Go `errors.New`. -/
def errors.New (text : GoString) : GoError := GoError.errorString text

/-- Go `error.Error()`: the text of an error value. -/
def GoError.Error : GoError → GoString
  | GoError.errorString text => text
  | GoError.decoder detail => detail

/-- Values stored behind Go's `interface{}` by this package (and, for
contrast, integer values, which it never stores). -/
inductive GoValue where
  | str (s : GoString)
  | int (n : Int)
  deriving DecidableEq, Repr

/-- Go `unicode.IsSpace`: the Latin-1 switch, then the `White_Space` table. -/
def isSpace (r : Char) : Bool :=
  let c := r.toNat
  if c ≤ 0xFF then
    c = 0x09 || c = 0x0A || c = 0x0B || c = 0x0C || c = 0x0D || c = 0x20
      || c = 0x85 || c = 0xA0
  else
    c = 0x1680 || (0x2000 ≤ c && c ≤ 0x200A) || c = 0x2028 || c = 0x2029
      || c = 0x202F || c = 0x205F || c = 0x3000

/-- Go `unicode.ToLower`: ASCII is handled inline, every other rune goes to
the case table. -/
def unicodeToLower (caseTable : Char → Char) (r : Char) : Char :=
  if r.toNat ≤ 0x7F then
    if 0x41 ≤ r.toNat ∧ r.toNat ≤ 0x5A then Char.ofNat (r.toNat + 0x20) else r
  else caseTable r

/-- The ASCII-only branch of Go `strings.ToLower`. -/
def asciiLower (r : Char) : Char :=
  if 0x41 ≤ r.toNat ∧ r.toNat ≤ 0x5A then Char.ofNat (r.toNat + 0x20) else r

/-- Go `strings.ToLower`: a string of ASCII runes is returned as it is when it
has no upper-case letter and lowered bytewise otherwise; any other string is
mapped rune by rune through `unicode.ToLower`. -/
def strings.ToLower (caseTable : Char → Char) (s : GoString) : GoString :=
  let isASCII := s.data.all (fun r => r.toNat < 0x80)
  let hasUpper := s.data.any (fun r => 0x41 ≤ r.toNat && r.toNat ≤ 0x5A)
  if isASCII then
    if !hasUpper then s else String.mk (s.data.map asciiLower)
  else String.mk (s.data.map (unicodeToLower caseTable))

/-- Go `strings.TrimSpace`: drop the leading, then the trailing white space. -/
def strings.TrimSpace (s : GoString) : GoString :=
  String.mk ((s.data.dropWhile isSpace).rdropWhile isSpace)

/-- UTF-8 bytes of one rune (Go `utf8.EncodeRune`). -/
def utf8EncodeRune (r : Char) : List Nat :=
  let c := r.toNat
  if c < 0x80 then [c]
  else if c < 0x800 then [0xC0 + c / 0x40, 0x80 + c % 0x40]
  else if c < 0x10000 then [0xE0 + c / 0x1000, 0x80 + (c / 0x40) % 0x40, 0x80 + c % 0x40]
  else [0xF0 + c / 0x40000, 0x80 + (c / 0x1000) % 0x40, 0x80 + (c / 0x40) % 0x40,
        0x80 + c % 0x40]

/-- The bytes of a string (Go `[]byte(s)`). -/
def bytesOf (s : GoString) : List Nat := s.data.flatMap utf8EncodeRune

/-- The table `hex` of `encoding/json`. -/
def hexDigit (n : Nat) : Nat := if n < 10 then 0x30 + n else 0x61 + (n - 10)

/-- One rune of a string as `encoding/json` writes it with HTML escaping on:
quote and backslash get a backslash, newline, carriage return and tab their
letter, the other control bytes and `<`, `>`, `&` the `\u00XX` form, the two
Unicode line separators the `\u202X` form, and everything else is copied. -/
def jsonEscapeRune (r : Char) : List Nat :=
  let c := r.toNat
  if c < 0x80 then
    if 0x20 ≤ c ∧ c ≠ 0x22 ∧ c ≠ 0x26 ∧ c ≠ 0x3C ∧ c ≠ 0x3E ∧ c ≠ 0x5C then [c]
    else if c = 0x5C ∨ c = 0x22 then [0x5C, c]
    else if c = 0x0A then [0x5C, 0x6E]
    else if c = 0x0D then [0x5C, 0x72]
    else if c = 0x09 then [0x5C, 0x74]
    else [0x5C, 0x75, 0x30, 0x30, hexDigit (c / 16), hexDigit (c % 16)]
  else if c = 0x2028 ∨ c = 0x2029 then [0x5C, 0x75, 0x32, 0x30, 0x32, hexDigit (c % 16)]
  else utf8EncodeRune r

/-- Go `json.Marshal` at a `string` argument: the escaped runes between two
double quotes; it has no failure case. -/
def json.Marshal (s : GoString) : List Nat × Option GoError :=
  ([0x22] ++ s.data.flatMap jsonEscapeRune ++ [0x22], none)

/-! ## The matcher types -/

/-- Source: `type MatcherType int`. -/
abbrev MatcherType := Int

/-- Source: `WordsMatcher MatcherType = iota + 1`. -/
def WordsMatcher : MatcherType := 0 + 1
/-- Source: the second constant of the block, `iota + 1` at `iota = 1`. -/
def RegexMatcher : MatcherType := 1 + 1
/-- Source: the third constant of the block. -/
def BinaryMatcher : MatcherType := 2 + 1
/-- Source: the fourth constant of the block. -/
def StatusMatcher : MatcherType := 3 + 1
/-- Source: the fifth constant of the block. -/
def SizeMatcher : MatcherType := 4 + 1
/-- Source: the sixth constant of the block. -/
def DSLMatcher : MatcherType := 5 + 1
/-- Source: `limit`, the constant that closes the block. -/
def limit : MatcherType := 6 + 1

/-- Source: `var MatcherTypes = map[MatcherType]string{...}`, the entries in
the order of the literal. -/
def MatcherTypes : List (MatcherType × GoString) :=
  [ (StatusMatcher, "status"),
    (SizeMatcher, "size"),
    (WordsMatcher, "word"),
    (RegexMatcher, "regex"),
    (BinaryMatcher, "binary"),
    (DSLMatcher, "dsl") ]

/-- Go map indexing `m[key]` at a string-valued map: the value stored under
the key, or the zero value `""`. -/
def mapIndex (m : List (MatcherType × GoString)) (key : MatcherType) : GoString :=
  match m.lookup key with
  | some value => value
  | none => ""

/-- The loop of `GetSupportedMatcherTypes`:
`for index := ...; index < limit; index++ { result = append(result, index) }`,
run for at most `fuel` iterations from the given `index` and `result`. -/
def supportedLoop : Nat → MatcherType → List MatcherType → List MatcherType
  | 0, _, result => result
  | fuel + 1, index, result =>
    if index < limit then supportedLoop fuel (index + 1) (result ++ [index]) else result

/-- Source: `GetSupportedMatcherTypes`. The loop starts at `MatcherType(1)`
with a nil `result`; `limit` iterations are more than it can use. -/
def GetSupportedMatcherTypes : List MatcherType :=
  supportedLoop limit.toNat 1 []

/-- Source: `normalizeValue`. -/
def normalizeValue (caseTable : Char → Char) (value : GoString) : GoString :=
  strings.TrimSpace (strings.ToLower caseTable value)

/-- The `range` loop of `toMatcherTypes` over the entries in the order given:
the key of the first entry whose value equals `normalizedValue`. -/
def rangeMatch (normalizedValue : GoString) : List (MatcherType × GoString) → Option MatcherType
  | [] => none
  | (key, currentValue) :: rest =>
    if normalizedValue = currentValue then some key else rangeMatch normalizedValue rest

/-- Source: `toMatcherTypes`, with the map entries visited in the order
`entries`. -/
def toMatcherTypesIn (entries : List (MatcherType × GoString)) (caseTable : Char → Char)
    (valueToMap : GoString) : MatcherType × Option GoError :=
  let normalizedValue := normalizeValue caseTable valueToMap
  match rangeMatch normalizedValue entries with
  | some key => (key, none)
  | none => (-1, some (errors.New ("Invalid matcher type: " ++ valueToMap)))

/-- Source: `toMatcherTypes`, ranging over `MatcherTypes`. -/
def toMatcherTypes (caseTable : Char → Char) (valueToMap : GoString) :
    MatcherType × Option GoError :=
  toMatcherTypesIn MatcherTypes caseTable valueToMap

/-- The package-level variables of the file. -/
structure PackageVars where
  MatcherTypes : List (MatcherType × GoString)
  deriving DecidableEq, Repr

/-- The package variables as the initialiser leaves them. -/
def initialVars : PackageVars := { MatcherTypes := MatcherTypes }

/-- Source: `toMatcherTypes` as a step on the package variables: it reads the
table held in `vars`, and hands back the result with the variables after the
call. -/
def toMatcherTypesStep (caseTable : Char → Char) (vars : PackageVars) (valueToMap : GoString) :
    (MatcherType × Option GoError) × PackageVars :=
  (toMatcherTypesIn vars.MatcherTypes caseTable valueToMap, vars)

/-- Source: `func (t MatcherType) String() string`. -/
def MatcherType.String (t : MatcherType) : GoString := mapIndex MatcherTypes t

/-! ## The holder -/

/-- Source: `type MatcherTypeHolder struct`. -/
structure MatcherTypeHolder where
  MatcherType : MatcherType
  deriving DecidableEq, Repr

/-- Source: `func (t MatcherTypeHolder) String() string`. -/
def MatcherTypeHolder.String (t : MatcherTypeHolder) : GoString :=
  MatcherType.String t.MatcherType

/-- The fields of `jsonschema.Type` that the package fills in. -/
structure JsonSchemaType where
  Type_ : GoString
  Title : GoString
  Description : GoString
  Enum : List GoValue
  deriving DecidableEq, Repr

/-- Source: `JSONSchemaType`. The receiver is not read. -/
def MatcherTypeHolder.JSONSchemaType (_holder : MatcherTypeHolder) : JsonSchemaType :=
  let gotType : JsonSchemaType :=
    { Type_ := "string",
      Title := "type of the matcher",
      Description :=
        "Type of the matcher,enum=status,enum=size,enum=word,enum=regex,enum=binary,enum=dsl",
      Enum := [] }
  GetSupportedMatcherTypes.foldl
    (fun gotType types =>
      { gotType with Enum := gotType.Enum ++ [GoValue.str (MatcherType.String types)] })
    gotType

/-- Source: `UnmarshalYAML`. The callback receives the zero-valued target
string and answers with what it left in the target and its error. The result
is the holder after the call together with the returned error. -/
def MatcherTypeHolder.UnmarshalYAML (caseTable : Char → Char) (holder : MatcherTypeHolder)
    (unmarshal : GoString → GoString × Option GoError) : MatcherTypeHolder × Option GoError :=
  let marshalledTypes := ""
  match unmarshal marshalledTypes with
  | (_, some err) => (holder, some err)
  | (marshalledTypes, none) =>
    match toMatcherTypes caseTable marshalledTypes with
    | (_, some err) => (holder, some err)
    | (computedType, none) => ({ holder with MatcherType := computedType }, none)

/-- Source: `MarshalJSON`. -/
def MatcherTypeHolder.MarshalJSON (holder : MatcherTypeHolder) : List Nat × Option GoError :=
  json.Marshal (MatcherType.String holder.MatcherType)

/-- Source: `MarshalYAML`. -/
def MatcherTypeHolder.MarshalYAML (holder : MatcherTypeHolder) : GoValue × Option GoError :=
  (GoValue.str (MatcherType.String holder.MatcherType), none)

/-- A decoder callback that delivers the scalar `s`. -/
def deliver (s : GoString) : GoString → GoString × Option GoError := fun _ => (s, none)

/-- A decoder callback that fails with `e`, leaving the target as it was. -/
def refuse (e : GoError) : GoString → GoString × Option GoError := fun target => (target, some e)

/-- A small case table for concrete evaluations: Latin-1 capitals, the
dotted capital I and the Kelvin sign are lowered, every other rune is kept. -/
def sampleCaseTable (r : Char) : Char :=
  let c := r.toNat
  if 0xC0 ≤ c ∧ c ≤ 0xDE ∧ c ≠ 0xD7 then Char.ofNat (c + 0x20)
  else if c = 0x130 then Char.ofNat 0x69
  else if c = 0x212A then Char.ofNat 0x6B
  else r

/-- The six canonical names. -/
def canonicalNames : List GoString := ["status", "size", "word", "regex", "binary", "dsl"]

/-- Go `unicode.ToUpper` on ASCII: the other case of an ASCII letter. -/
def asciiUpper (r : Char) : Char :=
  if 0x61 ≤ r.toNat ∧ r.toNat ≤ 0x7A then Char.ofNat (r.toNat - 0x20) else r

/-- The lower-case ASCII letters. -/
def lowerLetters : List Char := "abcdefghijklmnopqrstuvwxyz".data

/-- The bytes `encoding/json` writes for an integer: its decimal digits. -/
def jsonInt (n : Int) : List Nat := bytesOf (toString n)

/-- Whether `variant` is `name` with the case of some of its runes changed. -/
def isCaseVariantOf : List Char → List Char → Bool
  | [], [] => true
  | a :: name, b :: variant => (b == a || b == asciiUpper a) && isCaseVariantOf name variant
  | _, _ => false

/-- The normalisation in the order of the specification's words: trim the
surrounding white space, then lower the case. -/
def normalizeValueSpec (caseTable : Char → Char) (value : GoString) : GoString :=
  strings.ToLower caseTable (strings.TrimSpace value)

/-- The reverse index of the specification's design note, built once from the
table entries taken in the order given: each canonical name with its key. -/
def reverseIndex (entries : List (MatcherType × GoString)) : List (GoString × MatcherType) :=
  entries.map (fun entry => (entry.2, entry.1))

/-- The parser of the specification's design note: normalise, then look the
value up in a reverse index instead of scanning the table. -/
def toMatcherTypesIndexed (index : List (GoString × MatcherType)) (caseTable : Char → Char)
    (valueToMap : GoString) : MatcherType × Option GoError :=
  match index.lookup (normalizeValue caseTable valueToMap) with
  | some key => (key, none)
  | none => (-1, some (errors.New ("Invalid matcher type: " ++ valueToMap)))

/-- The round trip of a kind through the text form: encode a holder of `k`
with `MarshalYAML` and, when that gives a string and a nil error, hand the
string to `UnmarshalYAML` on `holder` through the callback; an encoding that
is not a string, or an encoding error, gives `none`. -/
def yamlRoundTrip (caseTable : Char → Char) (k : MatcherType) (holder : MatcherTypeHolder) :
    Option (MatcherTypeHolder × Option GoError) :=
  match MatcherTypeHolder.MarshalYAML { MatcherType := k } with
  | (GoValue.str text, none) =>
    some (MatcherTypeHolder.UnmarshalYAML caseTable holder (deliver text))
  | _ => none

/-! ## Helper lemmas -/

theorem mem_supported_iff (k : MatcherType) :
    k ∈ GetSupportedMatcherTypes ↔ k = 1 ∨ k = 2 ∨ k = 3 ∨ k = 4 ∨ k = 5 ∨ k = 6 := by
  have h : GetSupportedMatcherTypes = [1, 2, 3, 4, 5, 6] := by decide
  rw [h]; simp

theorem supportedLoop_fuel (fuel : Nat) (h : 6 ≤ fuel) :
    supportedLoop fuel 1 [] = [1, 2, 3, 4, 5, 6] := by
  obtain ⟨n, rfl⟩ : ∃ n, fuel = n + 6 := ⟨fuel - 6, by omega⟩
  cases n <;> simp [supportedLoop, limit]

theorem unicodeToLower_of_ascii (caseTable : Char → Char) (r : Char) (h : r.toNat < 0x80) :
    unicodeToLower caseTable r = asciiLower r := by
  have h1 : r.toNat ≤ 0x7F := by omega
  simp [unicodeToLower, asciiLower, h1]

theorem ToLower_data (caseTable : Char → Char) (s : GoString) :
    (strings.ToLower caseTable s).data = s.data.map (unicodeToLower caseTable) := by
  unfold strings.ToLower
  simp only []
  split_ifs with h1 h2
  · have h3 : ∀ r ∈ s.data, unicodeToLower caseTable r = r := by
      intro r hr
      have ha : r.toNat < 0x80 := by simpa using (List.all_eq_true.mp h1) r hr
      rw [unicodeToLower_of_ascii caseTable r ha]
      have hu : ¬ (0x41 ≤ r.toNat ∧ r.toNat ≤ 0x5A) := by
        intro hc
        have : s.data.any (fun r => decide (0x41 ≤ r.toNat) && decide (r.toNat ≤ 0x5A)) = true :=
          List.any_eq_true.mpr ⟨r, hr, by simp [hc.1, hc.2]⟩
        simp [this] at h2
      simp [asciiLower, hu]
    exact ((List.map_congr_left h3).trans (List.map_id _)).symm
  · show s.data.map asciiLower = s.data.map (unicodeToLower caseTable)
    apply List.map_congr_left
    intro r hr
    have ha : r.toNat < 0x80 := by simpa using (List.all_eq_true.mp h1) r hr
    exact (unicodeToLower_of_ascii caseTable r ha).symm
  · rfl

theorem normalizeValue_data (caseTable : Char → Char) (s : GoString) :
    (normalizeValue caseTable s).data =
      ((s.data.map (unicodeToLower caseTable)).dropWhile isSpace).rdropWhile isSpace := by
  simp [normalizeValue, strings.TrimSpace, ToLower_data]

theorem rangeMatch_table (n : GoString) :
    rangeMatch n MatcherTypes =
      if n = "status" then some StatusMatcher
      else if n = "size" then some SizeMatcher
      else if n = "word" then some WordsMatcher
      else if n = "regex" then some RegexMatcher
      else if n = "binary" then some BinaryMatcher
      else if n = "dsl" then some DSLMatcher
      else none := rfl

/-- The two ways `toMatcherTypes` can end: the normalised value is a
canonical name and the kind carrying that name comes back with a nil error,
or it is none of them and `-1` comes back with the error naming the input. -/
theorem toMatcherTypes_cases (caseTable : Char → Char) (s : GoString) :
    (normalizeValue caseTable s ∈ canonicalNames ∧
      ∃ k, k ∈ GetSupportedMatcherTypes ∧ MatcherType.String k = normalizeValue caseTable s ∧
        toMatcherTypes caseTable s = (k, none)) ∨
    (normalizeValue caseTable s ∉ canonicalNames ∧
      toMatcherTypes caseTable s =
        (-1, some (errors.New ("Invalid matcher type: " ++ s)))) := by
  unfold toMatcherTypes toMatcherTypesIn
  simp only [rangeMatch_table]
  generalize normalizeValue caseTable s = n
  split_ifs with h1 h2 h3 h4 h5 h6
  · subst h1; exact Or.inl ⟨by decide, StatusMatcher, by decide, by decide, rfl⟩
  · subst h2; exact Or.inl ⟨by decide, SizeMatcher, by decide, by decide, rfl⟩
  · subst h3; exact Or.inl ⟨by decide, WordsMatcher, by decide, by decide, rfl⟩
  · subst h4; exact Or.inl ⟨by decide, RegexMatcher, by decide, by decide, rfl⟩
  · subst h5; exact Or.inl ⟨by decide, BinaryMatcher, by decide, by decide, rfl⟩
  · subst h6; exact Or.inl ⟨by decide, DSLMatcher, by decide, by decide, rfl⟩
  · exact Or.inr ⟨by simp [canonicalNames, h1, h2, h3, h4, h5, h6], rfl⟩

/-- The string table as a case distinction on the code. -/
theorem String_table (k : MatcherType) :
    MatcherType.String k =
      if k = 4 then "status" else if k = 5 then "size" else if k = 1 then "word"
      else if k = 2 then "regex" else if k = 3 then "binary" else if k = 6 then "dsl"
      else "" := by
  unfold MatcherType.String mapIndex MatcherTypes
  simp only [StatusMatcher, SizeMatcher, WordsMatcher, RegexMatcher, BinaryMatcher, DSLMatcher]
  split_ifs with h1 h2 h3 h4 h5 h6
  · subst h1; rfl
  · subst h2; rfl
  · subst h3; rfl
  · subst h4; rfl
  · subst h5; rfl
  · subst h6; rfl
  · have e1 : (k == (3 + 1 : Int)) = false := by simpa using h1
    have e2 : (k == (4 + 1 : Int)) = false := by simpa using h2
    have e3 : (k == (0 + 1 : Int)) = false := by simpa using h3
    have e4 : (k == (1 + 1 : Int)) = false := by simpa using h4
    have e5 : (k == (2 + 1 : Int)) = false := by simpa using h5
    have e6 : (k == (5 + 1 : Int)) = false := by simpa using h6
    simp only [List.lookup, e1, e2, e3, e4, e5, e6]

/-- A code has a non-empty name exactly when it is one of the six kinds. -/
theorem String_ne_empty_iff (k : MatcherType) :
    MatcherType.String k ≠ "" ↔ k ∈ GetSupportedMatcherTypes := by
  rw [String_table, mem_supported_iff]
  split_ifs with h1 h2 h3 h4 h5 h6 <;> simp_all

/-- The string table read backwards: two codes with the same non-empty name
are the same code. -/
theorem String_injective (a b : MatcherType) (ha : MatcherType.String a ≠ "")
    (h : MatcherType.String a = MatcherType.String b) : a = b := by
  rw [String_table a, String_table b] at h
  rw [String_table a] at ha
  split_ifs at h ha <;> first | (exact absurd h (by decide)) | (exact absurd rfl ha) | simp_all

theorem String_mem_canonicalNames (k : MatcherType) (hk : k ∈ GetSupportedMatcherTypes) :
    MatcherType.String k ∈ canonicalNames := by
  rcases (mem_supported_iff k).mp hk with h | h | h | h | h | h <;> subst h <;> decide

/-- A string whose normalised form is the name of a kind parses to that kind. -/
theorem toMatcherTypes_of_normalized (caseTable : Char → Char) (s : GoString) (k : MatcherType)
    (hk : k ∈ GetSupportedMatcherTypes) (h : normalizeValue caseTable s = MatcherType.String k) :
    toMatcherTypes caseTable s = (k, none) := by
  rcases toMatcherTypes_cases caseTable s with ⟨_, k2, hk2, hs, hr⟩ | ⟨hn, _⟩
  · have hne : MatcherType.String k2 ≠ "" := (String_ne_empty_iff k2).mpr hk2
    have : k2 = k := String_injective k2 k hne (hs.trans h)
    rw [hr, this]
  · exact absurd (h ▸ String_mem_canonicalNames k hk) hn

theorem lowerLetters_facts :
    ∀ a ∈ lowerLetters, asciiLower a = a ∧ asciiLower (asciiUpper a) = a ∧
      a.toNat < 0x80 ∧ (asciiUpper a).toNat < 0x80 ∧ isSpace a = false := by
  decide

theorem names_lowerLetters (k : MatcherType) (hk : k ∈ GetSupportedMatcherTypes) :
    (∀ a ∈ (MatcherType.String k).data, a ∈ lowerLetters) ∧ (MatcherType.String k).data ≠ [] := by
  rcases (mem_supported_iff k).mp hk with h | h | h | h | h | h <;> subst h <;> decide

theorem map_lower_caseVariant (caseTable : Char → Char) :
    ∀ (n mid : List Char), (∀ a ∈ n, a ∈ lowerLetters) → isCaseVariantOf n mid = true →
      mid.map (unicodeToLower caseTable) = n := by
  intro n
  induction n with
  | nil => intro mid _ h; cases mid with
    | nil => rfl
    | cons b bs => simp [isCaseVariantOf] at h
  | cons a n ih =>
    intro mid hn h
    cases mid with
    | nil => simp [isCaseVariantOf] at h
    | cons b bs =>
      simp only [isCaseVariantOf, Bool.and_eq_true, Bool.or_eq_true, beq_iff_eq] at h
      obtain ⟨hb, hrest⟩ := h
      have hf := lowerLetters_facts a (hn a (List.mem_cons_self _ _))
      have hbs := ih bs (fun c hc => hn c (List.mem_cons_of_mem _ hc)) hrest
      have hb2 : unicodeToLower caseTable b = a := by
        rcases hb with rfl | rfl
        · rw [unicodeToLower_of_ascii _ _ hf.2.2.1]; exact hf.1
        · rw [unicodeToLower_of_ascii _ _ hf.2.2.2.1]; exact hf.2.1
      simp [hb2, hbs]

theorem isSpace_unicodeToLower (caseTable : Char → Char)
    (hsp : ∀ c, isSpace c = true → isSpace (caseTable c) = true) (c : Char)
    (hc : isSpace c = true) : isSpace (unicodeToLower caseTable c) = true := by
  unfold unicodeToLower
  split_ifs with h1 h2
  · exfalso
    have h3 : c.toNat ≤ 0xFF := by omega
    simp only [isSpace, h3, if_true] at hc
    simp only [Bool.or_eq_true, decide_eq_true_eq] at hc
    omega
  · exact hc
  · exact hsp c hc

/-- Trimming a padded word: white space around a non-empty run of runes that
are not white space is all that `TrimSpace` removes. -/
theorem trim_padded (pre mid post : List Char) (hpre : ∀ c ∈ pre, isSpace c = true)
    (hpost : ∀ c ∈ post, isSpace c = true) (hmid : ∀ c ∈ mid, isSpace c = false) :
    ((pre ++ mid ++ post).dropWhile isSpace).rdropWhile isSpace = mid := by
  cases mid with
  | nil =>
    simp only [List.append_nil]
    rw [List.rdropWhile_eq_nil_iff]
    intro x hx
    have := List.dropWhile_subset isSpace hx
    rcases List.mem_append.mp this with h | h
    · exact hpre x h
    · exact hpost x h
  | cons a m =>
    have ha : ¬ (isSpace a = true) := by simp [hmid a (List.mem_cons_self _ _)]
    rw [List.append_assoc, List.dropWhile_append_of_pos hpre, List.cons_append,
      List.dropWhile_cons_of_neg ha]
    unfold List.rdropWhile
    rw [← List.cons_append, List.reverse_append,
      List.dropWhile_append_of_pos (fun c hc => hpost c (List.mem_reverse.mp hc))]
    have hrev : (a :: m).reverse.dropWhile isSpace = (a :: m).reverse := by
      cases hr : (a :: m).reverse with
      | nil => rfl
      | cons z zs =>
        have hz : z ∈ a :: m := by
          have : z ∈ (a :: m).reverse := by rw [hr]; exact List.mem_cons_self _ _
          exact List.mem_reverse.mp this
        have hz2 : ¬ (isSpace z = true) := by simp [hmid z hz]
        exact List.dropWhile_cons_of_neg hz2
    rw [hrev, List.reverse_reverse]

theorem normalizeValue_String (caseTable : Char → Char) (k : MatcherType)
    (hk : k ∈ GetSupportedMatcherTypes) :
    normalizeValue caseTable (MatcherType.String k) = MatcherType.String k := by
  rcases (mem_supported_iff k).mp hk with h | h | h | h | h | h <;> subst h <;> rfl

/-- What `UnmarshalYAML` does once the callback has delivered `s` and
`toMatcherTypes s` has returned `k` with a nil error. -/
theorem UnmarshalYAML_of_parsed (caseTable : Char → Char) (holder : MatcherTypeHolder)
    (unmarshal : GoString → GoString × Option GoError) (s : GoString) (k : MatcherType)
    (h : unmarshal "" = (s, none)) (hk : toMatcherTypes caseTable s = (k, none)) :
    MatcherTypeHolder.UnmarshalYAML caseTable holder unmarshal =
      ({ MatcherType := k }, none) := by
  simp only [MatcherTypeHolder.UnmarshalYAML, h, hk]

/-- What `UnmarshalYAML` does once the callback has delivered `s` and
`toMatcherTypes s` has returned the error `e`. -/
theorem UnmarshalYAML_of_refused (caseTable : Char → Char) (holder : MatcherTypeHolder)
    (unmarshal : GoString → GoString × Option GoError) (s : GoString) (c : MatcherType)
    (e : GoError) (h : unmarshal "" = (s, none)) (he : toMatcherTypes caseTable s = (c, some e)) :
    MatcherTypeHolder.UnmarshalYAML caseTable holder unmarshal = (holder, some e) := by
  simp only [MatcherTypeHolder.UnmarshalYAML, h, he]

/-- A proper initial segment of a canonical name, given as the input itself,
is refused. -/
theorem toMatcherTypes_initial_segment (caseTable : Char → Char) :
    ∀ n ∈ canonicalNames, ∀ p t : List Char, t ≠ [] →
      p ++ t = n.data → (toMatcherTypes caseTable (String.mk p)).2 ≠ none := by
  intro n hn p t ht h
  have hp : p = n.data.take p.length := by rw [← h, List.take_left]
  have hl : p.length < n.data.length := by
    have : 0 < t.length := List.length_pos.mpr ht
    rw [← h, List.length_append]; omega
  generalize p.length = i at hp hl
  subst hp
  simp only [canonicalNames, List.mem_cons, List.mem_singleton, List.not_mem_nil,
    or_false] at hn
  rcases hn with rfl | rfl | rfl | rfl | rfl | rfl <;>
    first
      | (have hl2 : i < 3 := hl
         interval_cases i <;> (intro hh; cases hh))
      | (have hl2 : i < 4 := hl
         interval_cases i <;> (intro hh; cases hh))
      | (have hl2 : i < 5 := hl
         interval_cases i <;> (intro hh; cases hh))
      | (have hl2 : i < 6 := hl
         interval_cases i <;> (intro hh; cases hh))

/-- Every way `UnmarshalYAML` can end: with an error and the holder as it
was, or with a nil error and the holder holding the kind that the delivered
scalar names. -/
theorem UnmarshalYAML_cases (caseTable : Char → Char) (holder : MatcherTypeHolder)
    (unmarshal : GoString → GoString × Option GoError) :
    (∃ e, MatcherTypeHolder.UnmarshalYAML caseTable holder unmarshal = (holder, some e)) ∨
    (∃ s k, unmarshal "" = (s, none) ∧ k ∈ GetSupportedMatcherTypes ∧
      MatcherType.String k = normalizeValue caseTable s ∧
      toMatcherTypes caseTable s = (k, none) ∧
      MatcherTypeHolder.UnmarshalYAML caseTable holder unmarshal =
        ({ MatcherType := k }, none)) := by
  rcases hu : unmarshal "" with ⟨t, _ | e⟩
  · rcases toMatcherTypes_cases caseTable t with ⟨_, k, hk, hs, hr⟩ | ⟨_, hr⟩
    · exact Or.inr ⟨t, k, rfl, hk, hs, hr,
        UnmarshalYAML_of_parsed caseTable holder unmarshal t k hu hr⟩
    · exact Or.inl ⟨_, UnmarshalYAML_of_refused caseTable holder unmarshal t _ _ hu hr⟩
  · exact Or.inl ⟨e, by simp only [MatcherTypeHolder.UnmarshalYAML, hu]⟩

/-- The code returned by `toMatcherTypes` is a kind when the error is nil and
`-1` when it is not. -/
theorem toMatcherTypes_code (caseTable : Char → Char) (s : GoString) :
    ((toMatcherTypes caseTable s).2 = none ∧
      (toMatcherTypes caseTable s).1 ∈ GetSupportedMatcherTypes) ∨
    ((toMatcherTypes caseTable s).2 ≠ none ∧ (toMatcherTypes caseTable s).1 = -1) := by
  rcases toMatcherTypes_cases caseTable s with ⟨_, k, hk, _, hr⟩ | ⟨_, hr⟩
  · rw [hr]; exact Or.inl ⟨rfl, hk⟩
  · rw [hr]; exact Or.inr ⟨by simp, rfl⟩

theorem isSpace_asciiLower (c : Char) : isSpace (asciiLower c) = isSpace c := by
  unfold asciiLower
  split_ifs with h
  · have hc := Char.ofNat_toNat c
    obtain ⟨h1, h2⟩ := h
    generalize c.toNat = n at h1 h2 hc
    subst hc
    interval_cases n <;> decide
  · rfl

/-- Lowering a rune does not change whether it is white space, once the case
table has that property above ASCII. -/
theorem isSpace_unicodeToLower_eq (caseTable : Char → Char)
    (htable : ∀ c, 0x80 ≤ c.toNat → isSpace (caseTable c) = isSpace c) (c : Char) :
    isSpace (unicodeToLower caseTable c) = isSpace c := by
  by_cases h : c.toNat < 0x80
  · rw [unicodeToLower_of_ascii caseTable c h]; exact isSpace_asciiLower c
  · have h2 : ¬ c.toNat ≤ 0x7F := by omega
    simp only [unicodeToLower, h2, if_false]
    exact htable c (by omega)

/-- Trimming commutes with a rune map that keeps white space and nothing
else white space. -/
theorem trim_map (f : Char → Char) (hf : ∀ c, isSpace (f c) = isSpace c) (l : List Char) :
    ((l.map f).dropWhile isSpace).rdropWhile isSpace =
      ((l.dropWhile isSpace).rdropWhile isSpace).map f := by
  have hcomp : isSpace ∘ f = isSpace := funext hf
  have hdrop : ∀ m : List Char, (m.map f).dropWhile isSpace = (m.dropWhile isSpace).map f := by
    intro m
    rw [List.dropWhile_map, hcomp]
  rw [hdrop]
  unfold List.rdropWhile
  rw [← List.map_reverse, hdrop, List.map_reverse]

theorem sampleCaseTable_isSpace (c : Char) (_h : 0x80 ≤ c.toNat) :
    isSpace (sampleCaseTable c) = isSpace c := by
  unfold sampleCaseTable
  simp only []
  split_ifs with h1 h2 h3
  · have hc := Char.ofNat_toNat c
    obtain ⟨h4, h5, _⟩ := h1
    generalize c.toNat = n at h4 h5 hc
    subst hc
    interval_cases n <;> decide
  · have hc := Char.ofNat_toNat c
    rw [h2] at hc
    subst hc
    decide
  · have hc := Char.ofNat_toNat c
    rw [h3] at hc
    subst hc
    decide
  · rfl

/-- When no canonical name occurs twice among the entries, the scan returns
a key exactly when the entry made of that key and the value is among them. -/
theorem rangeMatch_eq_some_iff (n : GoString) (k : MatcherType) :
    ∀ entries : List (MatcherType × GoString), (entries.map Prod.snd).Nodup →
      (rangeMatch n entries = some k ↔ (k, n) ∈ entries) := by
  intro entries
  induction entries with
  | nil => intro _; simp [rangeMatch]
  | cons e rest ih =>
    obtain ⟨key, v⟩ := e
    intro hnd
    simp only [List.map_cons, List.nodup_cons] at hnd
    obtain ⟨hv, hrest⟩ := hnd
    unfold rangeMatch
    split_ifs with h
    · subst h
      constructor
      · intro hk
        have : key = k := by simpa using hk
        subst this
        exact List.mem_cons_self _ _
      · intro hmem
        rcases List.mem_cons.mp hmem with heq | hin
        · have : k = key := (Prod.mk.inj heq).1
          rw [this]
        · exact absurd (List.mem_map.mpr ⟨(k, n), hin, rfl⟩) hv
    · rw [ih hrest]
      constructor
      · intro hin; exact List.mem_cons_of_mem _ hin
      · intro hmem
        rcases List.mem_cons.mp hmem with heq | hin
        · exact absurd (Prod.mk.inj heq).2 h
        · exact hin

/-- The scan gives the same answer over any two arrangements of the same
entries, as long as no canonical name occurs twice. -/
theorem rangeMatch_perm (n : GoString) (order1 order2 : List (MatcherType × GoString))
    (hperm : order1.Perm order2) (hnd : (order2.map Prod.snd).Nodup) :
    rangeMatch n order1 = rangeMatch n order2 := by
  have hnd1 : (order1.map Prod.snd).Nodup := ((hperm.map Prod.snd).nodup_iff).mpr hnd
  cases h1 : rangeMatch n order1 with
  | some k =>
    have hin := (rangeMatch_eq_some_iff n k order1 hnd1).mp h1
    exact ((rangeMatch_eq_some_iff n k order2 hnd).mpr (hperm.mem_iff.mp hin)).symm
  | none =>
    cases h2 : rangeMatch n order2 with
    | none => rfl
    | some k =>
      have hin := (rangeMatch_eq_some_iff n k order2 hnd).mp h2
      have := (rangeMatch_eq_some_iff n k order1 hnd1).mpr (hperm.mem_iff.mpr hin)
      rw [h1] at this
      exact absurd this (by simp)

/-- Looking a value up in the reverse index is the scan of the entries it
was built from. -/
theorem lookup_reverseIndex (n : GoString) :
    ∀ entries : List (MatcherType × GoString),
      (reverseIndex entries).lookup n = rangeMatch n entries := by
  intro entries
  induction entries with
  | nil => rfl
  | cons e rest ih =>
    obtain ⟨key, v⟩ := e
    have ih2 : List.lookup n (List.map (fun entry => (entry.2, entry.1)) rest) =
        rangeMatch n rest := ih
    by_cases h : n = v
    · subst h
      simp [reverseIndex, List.lookup, rangeMatch]
    · have hb : (n == v) = false := by simpa using h
      simp [reverseIndex, List.lookup, rangeMatch, hb, h, ih2]

/-! ## Parsing and the string table -/

/-- C1. Round trip: for every kind `k` listed by `GetSupportedMatcherTypes`,
`toMatcherTypes (k.String())` returns `k` with a nil error, whatever the
case table. -/
theorem toMatcherTypes_String_roundtrip (caseTable : Char → Char) (k : MatcherType)
    (hk : k ∈ GetSupportedMatcherTypes) :
    toMatcherTypes caseTable (MatcherType.String k) = (k, none) := by
  rcases (mem_supported_iff k).mp hk with h | h | h | h | h | h <;> subst h <;> rfl

theorem toMatcherTypes_String_roundtrip_witness :
    RegexMatcher ∈ GetSupportedMatcherTypes ∧
      toMatcherTypes sampleCaseTable (MatcherType.String RegexMatcher) = (RegexMatcher, none) :=
  ⟨by decide, toMatcherTypes_String_roundtrip sampleCaseTable RegexMatcher (by decide)⟩

/-- C2. For every input `s`, `toMatcherTypes s` has a nil error exactly when
`normalizeValue s` is one of the six canonical names; when it has, the kind
returned is one of the six, its name is `normalizeValue s`, and it is the only
code with that name. A normalised value that is a proper initial segment of a
canonical name, that extends a canonical name, or that has white space in it,
is refused; so are `wor`, `words` and `w ord`, and every input that is itself
a proper initial segment of a canonical name. -/
theorem toMatcherTypes_exact (caseTable : Char → Char) (s : GoString) :
    ((toMatcherTypes caseTable s).2 = none ↔ normalizeValue caseTable s ∈ canonicalNames) ∧
    ((toMatcherTypes caseTable s).2 = none →
      (toMatcherTypes caseTable s).1 ∈ GetSupportedMatcherTypes ∧
      MatcherType.String (toMatcherTypes caseTable s).1 = normalizeValue caseTable s ∧
      ∀ k : MatcherType, MatcherType.String k = normalizeValue caseTable s →
        k = (toMatcherTypes caseTable s).1) ∧
    (∀ n ∈ canonicalNames, ∀ t : List Char, t ≠ [] →
      (normalizeValue caseTable s).data ++ t = n.data → (toMatcherTypes caseTable s).2 ≠ none) ∧
    (∀ n ∈ canonicalNames, ∀ t : List Char, t ≠ [] →
      (normalizeValue caseTable s).data = n.data ++ t → (toMatcherTypes caseTable s).2 ≠ none) ∧
    ((∃ c ∈ (normalizeValue caseTable s).data, isSpace c = true) →
      (toMatcherTypes caseTable s).2 ≠ none) ∧
    (toMatcherTypes caseTable "wor").2 ≠ none ∧
    (toMatcherTypes caseTable "words").2 ≠ none ∧
    (toMatcherTypes caseTable "w ord").2 ≠ none ∧
    (∀ n ∈ canonicalNames, ∀ p t : List Char, t ≠ [] → p ++ t = n.data →
      (toMatcherTypes caseTable (String.mk p)).2 ≠ none) := by
  have hiff : (toMatcherTypes caseTable s).2 = none ↔
      normalizeValue caseTable s ∈ canonicalNames := by
    rcases toMatcherTypes_cases caseTable s with ⟨hin, k, _, _, hr⟩ | ⟨hn, hr⟩
    · simp [hr, hin]
    · simp [hr, hn]
  have hlen : ∀ n ∈ canonicalNames, ∀ m ∈ canonicalNames,
      ∀ t : List Char, t ≠ [] → m.data ++ t ≠ n.data := by
    intro n hn m hm t ht h
    have hl : m.data.length + t.length = n.data.length := by rw [← h, List.length_append]
    have ht2 : 0 < t.length := List.length_pos.mpr ht
    have hd : List.take m.data.length n.data = m.data := by rw [← h, List.take_left]
    simp only [canonicalNames, List.mem_cons, List.mem_singleton, List.not_mem_nil,
      or_false] at hn hm
    rcases hn with rfl | rfl | rfl | rfl | rfl | rfl <;>
      rcases hm with rfl | rfl | rfl | rfl | rfl | rfl <;>
      first
        | omega
        | (exact absurd hd (by decide))
  refine ⟨hiff, ?_, ?_, ?_, ?_, ?_, ?_, ?_, toMatcherTypes_initial_segment caseTable⟩
  · intro h
    rcases toMatcherTypes_cases caseTable s with ⟨_, k, hk, hs, hr⟩ | ⟨_, hr⟩
    · rw [hr]
      refine ⟨hk, hs, ?_⟩
      intro k2 hk2
      have hne : MatcherType.String k ≠ "" := (String_ne_empty_iff k).mpr hk
      exact (String_injective k k2 hne (hs.trans hk2.symm)).symm
    · rw [hr] at h; simp at h
  · intro n hn t ht h hnone
    exact hlen n hn _ (hiff.mp hnone) t ht h
  · intro n hn t ht h hnone
    exact hlen _ (hiff.mp hnone) n hn t ht h.symm
  · rintro ⟨c, hc, hsp⟩ hnone
    have hin := hiff.mp hnone
    have hall : ∀ n ∈ canonicalNames, ∀ c ∈ n.data, isSpace c = false := by decide
    rw [hall _ hin c hc] at hsp
    exact absurd hsp (by decide)
  · have e : toMatcherTypes caseTable "wor" =
        (-1, some (errors.New "Invalid matcher type: wor")) := rfl
    rw [e]; simp
  · have e : toMatcherTypes caseTable "words" =
        (-1, some (errors.New "Invalid matcher type: words")) := rfl
    rw [e]; simp
  · have e : toMatcherTypes caseTable "w ord" =
        (-1, some (errors.New "Invalid matcher type: w ord")) := rfl
    rw [e]; simp

theorem toMatcherTypes_exact_witness :
    ((toMatcherTypes sampleCaseTable " Size ").2 = none ∧
      (toMatcherTypes sampleCaseTable " Size ").1 ∈ GetSupportedMatcherTypes ∧
      MatcherType.String (toMatcherTypes sampleCaseTable " Size ").1 =
        normalizeValue sampleCaseTable " Size ") ∧
    (toMatcherTypes sampleCaseTable " WOR").2 ≠ none ∧
    (toMatcherTypes sampleCaseTable "Words ").2 ≠ none ∧
    (toMatcherTypes sampleCaseTable "w ord").2 ≠ none :=
  ⟨⟨by decide, ((toMatcherTypes_exact sampleCaseTable " Size ").2.1 (by decide)).1,
      ((toMatcherTypes_exact sampleCaseTable " Size ").2.1 (by decide)).2.1⟩,
    (toMatcherTypes_exact sampleCaseTable " WOR").2.2.1 "word" (by decide) [Char.ofNat 0x64]
      (by decide) (by decide),
    (toMatcherTypes_exact sampleCaseTable "Words ").2.2.2.1 "word" (by decide) [Char.ofNat 0x73]
      (by decide) (by decide),
    (toMatcherTypes_exact sampleCaseTable "w ord").2.2.2.2.1
      ⟨Char.ofNat 0x20, by decide, by decide⟩⟩

/-- C3. Parsing ignores case and surrounding white space: for every kind `k`
of `GetSupportedMatcherTypes`, a string made of white space, then the name of
`k` with the case of any of its letters changed, then white space, parses to
`k` with a nil error, as long as the case table of the toolchain maps white
space to white space. In particular ` Word `, `word` and `WORD` give
`WordsMatcher` under every case table. -/
theorem toMatcherTypes_case_space_insensitive (caseTable : Char → Char)
    (hsp : ∀ c, isSpace c = true → isSpace (caseTable c) = true)
    (k : MatcherType) (hk : k ∈ GetSupportedMatcherTypes) (pre mid post : List Char)
    (hpre : ∀ c ∈ pre, isSpace c = true) (hpost : ∀ c ∈ post, isSpace c = true)
    (hmid : isCaseVariantOf (MatcherType.String k).data mid = true) :
    toMatcherTypes caseTable (String.mk (pre ++ mid ++ post)) = (k, none) ∧
    toMatcherTypes caseTable " Word " = (WordsMatcher, none) ∧
    toMatcherTypes caseTable "word" = (WordsMatcher, none) ∧
    toMatcherTypes caseTable "WORD" = (WordsMatcher, none) := by
  refine ⟨?_, rfl, rfl, rfl⟩
  apply toMatcherTypes_of_normalized caseTable _ k hk
  have hn := names_lowerLetters k hk
  have hmap := map_lower_caseVariant caseTable _ mid hn.1 hmid
  have hdata : (normalizeValue caseTable (String.mk (pre ++ mid ++ post))).data =
      (MatcherType.String k).data := by
    rw [normalizeValue_data]
    simp only [List.map_append, hmap]
    apply trim_padded
    · intro c hc
      obtain ⟨d, hd, rfl⟩ := List.mem_map.mp hc
      exact isSpace_unicodeToLower caseTable hsp d (hpre d hd)
    · intro c hc
      obtain ⟨d, hd, rfl⟩ := List.mem_map.mp hc
      exact isSpace_unicodeToLower caseTable hsp d (hpost d hd)
    · intro c hc
      exact (lowerLetters_facts c (hn.1 c hc)).2.2.2.2
  exact String.ext hdata

theorem toMatcherTypes_case_space_insensitive_witness :
    toMatcherTypes sampleCaseTable "\t\u00a0 BiNaRy \u3000\n" = (BinaryMatcher, none) :=
  (toMatcherTypes_case_space_insensitive sampleCaseTable
    (by
      intro c hc
      have h : sampleCaseTable c = c := by
        unfold sampleCaseTable
        unfold isSpace at hc
        simp only [] at *
        split_ifs at hc ⊢ <;> first | rfl | (exfalso; simp at hc; omega)
      rw [h]; exact hc)
    BinaryMatcher (by decide) "\t\u00a0 ".data "BiNaRy".data " \u3000\n".data
    (by decide) (by decide) (by decide)).1

/-- C4. For every input `s` whose normalised form is none of the six canonical
names, `toMatcherTypes s` returns `-1` and an error whose text is
`Invalid matcher type: ` followed by `s` as given; `bogus` gives
`Invalid matcher type: bogus`. As a step on the package variables the call
hands them back as it found them. -/
theorem toMatcherTypes_invalid (caseTable : Char → Char) (s : GoString)
    (h : normalizeValue caseTable s ∉ canonicalNames) :
    toMatcherTypes caseTable s = (-1, some (errors.New ("Invalid matcher type: " ++ s))) ∧
    (∃ e, (toMatcherTypes caseTable s).2 = some e ∧
      GoError.Error e = "Invalid matcher type: " ++ s) ∧
    (toMatcherTypes caseTable "bogus").2 =
      some (errors.New "Invalid matcher type: bogus") ∧
    (toMatcherTypesStep caseTable initialVars s).1 = toMatcherTypes caseTable s ∧
    (∀ vars : PackageVars, (toMatcherTypesStep caseTable vars s).2 = vars) := by
  have hr : toMatcherTypes caseTable s =
      (-1, some (errors.New ("Invalid matcher type: " ++ s))) := by
    rcases toMatcherTypes_cases caseTable s with ⟨hin, _⟩ | ⟨_, hr⟩
    · exact absurd hin h
    · exact hr
  exact ⟨hr, ⟨errors.New ("Invalid matcher type: " ++ s), by rw [hr], rfl⟩, rfl, rfl,
    fun _ => rfl⟩

theorem toMatcherTypes_invalid_witness :
    toMatcherTypes sampleCaseTable " Bogus\n" =
      (-1, some (GoError.errorString "Invalid matcher type:  Bogus\n")) :=
  (toMatcherTypes_invalid sampleCaseTable " Bogus\n" (by decide)).1

/-- C5. `GetSupportedMatcherTypes` returns six entries, the codes 1 to 6 in
strictly ascending order without duplicates, which are `WordsMatcher`,
`RegexMatcher`, `BinaryMatcher`, `StatusMatcher`, `SizeMatcher`, `DSLMatcher`,
and the names of the entries are exactly `status`, `size`, `word`, `regex`,
`binary`, `dsl`. The loop ends by its own test: more fuel changes nothing. -/
theorem GetSupportedMatcherTypes_complete :
    GetSupportedMatcherTypes = [1, 2, 3, 4, 5, 6] ∧
    GetSupportedMatcherTypes =
      [WordsMatcher, RegexMatcher, BinaryMatcher, StatusMatcher, SizeMatcher, DSLMatcher] ∧
    GetSupportedMatcherTypes.length = 6 ∧
    GetSupportedMatcherTypes.Pairwise (fun a b => a < b) ∧
    GetSupportedMatcherTypes.Nodup ∧
    (∀ n : GoString, n ∈ GetSupportedMatcherTypes.map MatcherType.String ↔
      n ∈ canonicalNames) ∧
    (∀ fuel : Nat, limit.toNat ≤ fuel →
      supportedLoop fuel 1 [] = GetSupportedMatcherTypes) := by
  have h : GetSupportedMatcherTypes = [1, 2, 3, 4, 5, 6] := by decide
  refine ⟨h, by decide, by decide, by decide, by decide, ?_, ?_⟩
  · intro n
    have hm : GetSupportedMatcherTypes.map MatcherType.String =
        ["word", "regex", "binary", "status", "size", "dsl"] := by decide
    rw [hm]
    simp only [canonicalNames, List.mem_cons, List.mem_singleton, List.not_mem_nil, or_false]
    tauto
  · intro fuel hf
    rw [h]
    exact supportedLoop_fuel fuel (by
      have : limit.toNat = 7 := by decide
      omega)

theorem GetSupportedMatcherTypes_complete_witness :
    supportedLoop 100 1 [] = GetSupportedMatcherTypes :=
  GetSupportedMatcherTypes_complete.2.2.2.2.2.2 100 (by decide)

/-- C6. `MatcherType.String` is one-to-one on the six kinds: each of them has
a non-empty name made of lower-case ASCII letters only, the six names are
pairwise distinct, and a kind `a` whose name is also the name of a code `b` is
equal to `b`. -/
theorem String_bijective (a b : MatcherType) (ha : a ∈ GetSupportedMatcherTypes) :
    MatcherType.String a ≠ "" ∧
    (∀ c ∈ (MatcherType.String a).data, c ∈ lowerLetters) ∧
    (∀ caseTable : Char → Char,
      strings.ToLower caseTable (MatcherType.String a) = MatcherType.String a) ∧
    (GetSupportedMatcherTypes.map MatcherType.String).Nodup ∧
    (GetSupportedMatcherTypes.map MatcherType.String).length = 6 ∧
    (MatcherType.String a = MatcherType.String b → a = b) := by
  have hne : MatcherType.String a ≠ "" := (String_ne_empty_iff a).mpr ha
  refine ⟨hne, (names_lowerLetters a ha).1, ?_, by decide, by decide,
    String_injective a b hne⟩
  intro caseTable
  rcases (mem_supported_iff a).mp ha with h | h | h | h | h | h <;> subst h <;> rfl

theorem String_bijective_witness :
    MatcherType.String StatusMatcher ≠ "" ∧
    MatcherType.String StatusMatcher ≠ MatcherType.String SizeMatcher :=
  ⟨(String_bijective StatusMatcher SizeMatcher (by decide)).1,
    fun h => absurd ((String_bijective StatusMatcher SizeMatcher (by decide)).2.2.2.2.2 h)
      (by decide)⟩

/-! ## The holder -/

/-- C7. `UnmarshalYAML` is all-or-nothing and hands errors on as they are.
For every holder and every callback: when the callback returns the error `e`,
the call returns `e` and the holder is unchanged; when the callback delivers
`s` and `toMatcherTypes s` returns the error `e`, the call returns that same
`e`, which is the error `toMatcherTypes` built from `s`, and the holder is
unchanged; when `toMatcherTypes s` returns `k` with a nil error, the call
returns nil and the holder holds `k`. -/
theorem UnmarshalYAML_all_or_nothing (caseTable : Char → Char) (holder : MatcherTypeHolder)
    (unmarshal : GoString → GoString × Option GoError) :
    (∀ (t : GoString) (e : GoError), unmarshal "" = (t, some e) →
      MatcherTypeHolder.UnmarshalYAML caseTable holder unmarshal = (holder, some e)) ∧
    (∀ (s : GoString) (e : GoError), unmarshal "" = (s, none) →
      (toMatcherTypes caseTable s).2 = some e →
      MatcherTypeHolder.UnmarshalYAML caseTable holder unmarshal = (holder, some e) ∧
      e = errors.New ("Invalid matcher type: " ++ s)) ∧
    (∀ (s : GoString) (k : MatcherType), unmarshal "" = (s, none) →
      toMatcherTypes caseTable s = (k, none) →
      MatcherTypeHolder.UnmarshalYAML caseTable holder unmarshal =
        ({ MatcherType := k }, none)) := by
  refine ⟨?_, ?_, ?_⟩
  · intro t e h
    simp only [MatcherTypeHolder.UnmarshalYAML, h]
  · intro s e h he
    rcases toMatcherTypes_cases caseTable s with ⟨_, k, _, _, hr⟩ | ⟨_, hr⟩
    · rw [hr] at he; simp at he
    · have he2 : e = errors.New ("Invalid matcher type: " ++ s) := by
        rw [hr] at he; simpa using he.symm
      subst he2
      exact ⟨UnmarshalYAML_of_refused caseTable holder unmarshal s _ _ h hr, rfl⟩
  · intro s k h hk
    exact UnmarshalYAML_of_parsed caseTable holder unmarshal s k h hk

theorem UnmarshalYAML_all_or_nothing_witness :
    MatcherTypeHolder.UnmarshalYAML sampleCaseTable { MatcherType := SizeMatcher }
        (refuse (GoError.decoder "cannot unmarshal !!seq into string")) =
      ({ MatcherType := SizeMatcher },
        some (GoError.decoder "cannot unmarshal !!seq into string")) ∧
    MatcherTypeHolder.UnmarshalYAML sampleCaseTable { MatcherType := SizeMatcher }
        (deliver "Bogus") =
      ({ MatcherType := SizeMatcher },
        some (GoError.errorString "Invalid matcher type: Bogus")) ∧
    MatcherTypeHolder.UnmarshalYAML sampleCaseTable { MatcherType := SizeMatcher }
        (deliver " DSL") = ({ MatcherType := DSLMatcher }, none) :=
  ⟨(UnmarshalYAML_all_or_nothing sampleCaseTable { MatcherType := SizeMatcher }
      (refuse (GoError.decoder "cannot unmarshal !!seq into string"))).1 ""
      (GoError.decoder "cannot unmarshal !!seq into string") (by decide),
    ((UnmarshalYAML_all_or_nothing sampleCaseTable { MatcherType := SizeMatcher }
      (deliver "Bogus")).2.1 "Bogus" (GoError.errorString "Invalid matcher type: Bogus")
      (by decide) (by decide)).1,
    (UnmarshalYAML_all_or_nothing sampleCaseTable { MatcherType := SizeMatcher }
      (deliver " DSL")).2.2 " DSL" DSLMatcher (by decide) (by decide)⟩

/-- C8. Encode fidelity: for every kind `k` of `GetSupportedMatcherTypes`, a
holder of `k` encodes to the name of `k` with a nil error and never to the
code: `MarshalYAML` returns the string `k.String()`, not an integer, and
`MarshalJSON` returns the bytes of `k.String()` between two double quotes,
which are not the digits of `k`. A holder of `RegexMatcher` gives `regex` and
`"regex"`, not `2`. -/
theorem Marshal_fidelity (k : MatcherType) (hk : k ∈ GetSupportedMatcherTypes) :
    MatcherTypeHolder.MarshalYAML { MatcherType := k } =
      (GoValue.str (MatcherType.String k), none) ∧
    (∀ n : Int, (MatcherTypeHolder.MarshalYAML { MatcherType := k }).1 ≠ GoValue.int n) ∧
    MatcherTypeHolder.MarshalJSON { MatcherType := k } =
      ([0x22] ++ bytesOf (MatcherType.String k) ++ [0x22], none) ∧
    (MatcherTypeHolder.MarshalJSON { MatcherType := k }).1 ≠ jsonInt k ∧
    MatcherTypeHolder.MarshalYAML { MatcherType := RegexMatcher } =
      (GoValue.str "regex", none) ∧
    MatcherTypeHolder.MarshalJSON { MatcherType := RegexMatcher } =
      (bytesOf "\"regex\"", none) ∧
    (MatcherTypeHolder.MarshalJSON { MatcherType := RegexMatcher }).1 ≠ bytesOf "2" := by
  refine ⟨rfl, fun n h => ?_, ?_, ?_, by decide, by decide, by decide⟩
  · simp [MatcherTypeHolder.MarshalYAML] at h
  · rcases (mem_supported_iff k).mp hk with h | h | h | h | h | h <;> subst h <;> decide
  · rcases (mem_supported_iff k).mp hk with h | h | h | h | h | h <;> subst h <;> decide

theorem Marshal_fidelity_witness :
    MatcherTypeHolder.MarshalJSON { MatcherType := StatusMatcher } =
      ([0x22, 0x73, 0x74, 0x61, 0x74, 0x75, 0x73, 0x22], none) :=
  (Marshal_fidelity StatusMatcher (by decide)).2.2.1

/-- C9. For every holder, whatever it wraps, `JSONSchemaType` returns a
descriptor of type `string` with the fixed title and description, whose `Enum`
is `GetSupportedMatcherTypes` mapped through `String` in the same order, that
is `word`, `regex`, `binary`, `status`, `size`, `dsl`; every entry of the
`Enum` is a string and none is an integer. -/
theorem JSONSchemaType_enum (holder : MatcherTypeHolder) :
    (MatcherTypeHolder.JSONSchemaType holder).Type_ = "string" ∧
    (MatcherTypeHolder.JSONSchemaType holder).Title = "type of the matcher" ∧
    (MatcherTypeHolder.JSONSchemaType holder).Description =
      "Type of the matcher,enum=status,enum=size,enum=word,enum=regex,enum=binary,enum=dsl" ∧
    (MatcherTypeHolder.JSONSchemaType holder).Enum =
      GetSupportedMatcherTypes.map (fun k => GoValue.str (MatcherType.String k)) ∧
    (MatcherTypeHolder.JSONSchemaType holder).Enum =
      [GoValue.str "word", GoValue.str "regex", GoValue.str "binary", GoValue.str "status",
        GoValue.str "size", GoValue.str "dsl"] ∧
    (∀ v ∈ (MatcherTypeHolder.JSONSchemaType holder).Enum,
      (∃ s ∈ canonicalNames, v = GoValue.str s) ∧ ∀ n : Int, v ≠ GoValue.int n) ∧
    MatcherTypeHolder.JSONSchemaType holder =
      MatcherTypeHolder.JSONSchemaType { MatcherType := 0 } := by
  have he : (MatcherTypeHolder.JSONSchemaType holder).Enum =
      [GoValue.str "word", GoValue.str "regex", GoValue.str "binary", GoValue.str "status",
        GoValue.str "size", GoValue.str "dsl"] := by
    unfold MatcherTypeHolder.JSONSchemaType; decide
  refine ⟨?_, ?_, ?_, ?_, he, ?_, rfl⟩
  · unfold MatcherTypeHolder.JSONSchemaType; decide
  · unfold MatcherTypeHolder.JSONSchemaType; decide
  · unfold MatcherTypeHolder.JSONSchemaType; decide
  · rw [he]; decide
  · rw [he]
    intro v hv
    simp only [List.mem_cons, List.mem_singleton, List.not_mem_nil, or_false] at hv
    rcases hv with rfl | rfl | rfl | rfl | rfl | rfl <;>
      exact ⟨⟨_, by decide, rfl⟩, fun n h => by cases h⟩

theorem JSONSchemaType_enum_witness :
    GoValue.str "regex" ≠ GoValue.int 2 :=
  ((JSONSchemaType_enum { MatcherType := 0 }).2.2.2.2.2.1 (GoValue.str "regex")
    (by decide)).2 2

/-- C10. Holder round trip through the text form: for every kind `k` of
`GetSupportedMatcherTypes`, `MarshalYAML` on a holder of `k` produces the
string `k.String()` with a nil error, and that string, delivered by the
callback to `UnmarshalYAML` on any holder, gives a nil error and a holder of
`k`. Conversely, every delivered scalar `s` whose normalised form is a
canonical name is accepted, and whenever `UnmarshalYAML` of a delivered
scalar `s` returns nil, the `String()` of the holder after the call is
`normalizeValue s`. -/
theorem Holder_roundtrip (caseTable : Char → Char) (k : MatcherType)
    (hk : k ∈ GetSupportedMatcherTypes) (holder : MatcherTypeHolder) :
    MatcherTypeHolder.MarshalYAML { MatcherType := k } =
      (GoValue.str (MatcherType.String k), none) ∧
    yamlRoundTrip caseTable k holder = some ({ MatcherType := k }, none) ∧
    MatcherTypeHolder.UnmarshalYAML caseTable holder (deliver (MatcherType.String k)) =
      ({ MatcherType := k }, none) ∧
    (∀ text : GoString,
      MatcherTypeHolder.MarshalYAML { MatcherType := k } = (GoValue.str text, none) →
      MatcherTypeHolder.UnmarshalYAML caseTable holder (deliver text) =
        ({ MatcherType := k }, none)) ∧
    (∀ s : GoString, normalizeValue caseTable s ∈ canonicalNames →
      (MatcherTypeHolder.UnmarshalYAML caseTable holder (deliver s)).2 = none ∧
      MatcherTypeHolder.String
          (MatcherTypeHolder.UnmarshalYAML caseTable holder (deliver s)).1 =
        normalizeValue caseTable s) ∧
    (∀ (s : GoString) (after : MatcherTypeHolder),
      MatcherTypeHolder.UnmarshalYAML caseTable holder (deliver s) = (after, none) →
      MatcherTypeHolder.String after = normalizeValue caseTable s) := by
  have hback : MatcherTypeHolder.UnmarshalYAML caseTable holder
      (deliver (MatcherType.String k)) = ({ MatcherType := k }, none) :=
    UnmarshalYAML_of_parsed caseTable holder (deliver (MatcherType.String k)) _ k rfl
      (toMatcherTypes_of_normalized caseTable _ k hk (normalizeValue_String caseTable k hk))
  refine ⟨rfl, ?_, hback, ?_, ?_, ?_⟩
  · show some (MatcherTypeHolder.UnmarshalYAML caseTable holder
      (deliver (MatcherType.String k))) = some ({ MatcherType := k }, none)
    rw [hback]
  · intro text h
    have ht : text = MatcherType.String k := by
      simp only [MatcherTypeHolder.MarshalYAML, Prod.mk.injEq, GoValue.str.injEq,
        and_true] at h
      exact h.symm
    subst ht
    exact hback
  · intro s hin
    rcases toMatcherTypes_cases caseTable s with ⟨_, k2, _, hs, hr⟩ | ⟨hn, _⟩
    · rw [UnmarshalYAML_of_parsed caseTable holder (deliver s) s k2 rfl hr]
      exact ⟨rfl, hs⟩
    · exact absurd hin hn
  · intro s after h
    rcases toMatcherTypes_cases caseTable s with ⟨_, k2, _, hs, hr⟩ | ⟨_, hr⟩
    · have := UnmarshalYAML_of_parsed caseTable holder (deliver s) s k2 rfl hr
      rw [this] at h
      simp only [Prod.mk.injEq, and_true] at h
      subst h
      exact hs
    · have := UnmarshalYAML_of_refused caseTable holder (deliver s) s _ _ rfl hr
      rw [this] at h
      simp at h

theorem Holder_roundtrip_witness :
    MatcherTypeHolder.MarshalYAML { MatcherType := BinaryMatcher } =
      (GoValue.str "binary", none) ∧
    yamlRoundTrip sampleCaseTable BinaryMatcher { MatcherType := 0 } =
      some ({ MatcherType := BinaryMatcher }, none) ∧
    (MatcherTypeHolder.UnmarshalYAML sampleCaseTable { MatcherType := 0 }
      (deliver " woRD ")).2 = none ∧
    MatcherTypeHolder.String { MatcherType := WordsMatcher } =
      normalizeValue sampleCaseTable " woRD " :=
  ⟨(Holder_roundtrip sampleCaseTable BinaryMatcher (by decide) { MatcherType := 0 }).1,
    (Holder_roundtrip sampleCaseTable BinaryMatcher (by decide) { MatcherType := 0 }).2.1,
    ((Holder_roundtrip sampleCaseTable BinaryMatcher (by decide)
      { MatcherType := 0 }).2.2.2.2.1 " woRD " (by decide)).1,
    (Holder_roundtrip sampleCaseTable BinaryMatcher (by decide) { MatcherType := 0 }).2.2.2.2.2
      " woRD " { MatcherType := WordsMatcher } (by decide)⟩

/-! ## Codes outside the six kinds, and the life of a holder -/

/-- C11. String conversion outside the range: for every code `c` below 1 or
above 6, among them 0, -1 and `limit` = 7, `c.String()` is the empty string
(the call returns, there is no failure), so `c.String()` is non-empty exactly
when `c` is one of the six kinds. -/
theorem String_out_of_range (c : MatcherType) :
    ((c < 1 ∨ 6 < c) → MatcherType.String c = "") ∧
    (MatcherType.String c ≠ "" ↔ c ∈ GetSupportedMatcherTypes) ∧
    (c ∈ GetSupportedMatcherTypes ↔ 1 ≤ c ∧ c ≤ 6) ∧
    MatcherType.String 0 = "" ∧
    MatcherType.String (-1) = "" ∧
    limit = 7 ∧ MatcherType.String limit = "" := by
  have hrange : c ∈ GetSupportedMatcherTypes ↔ 1 ≤ c ∧ c ≤ 6 := by
    rw [mem_supported_iff]
    constructor
    · rintro (h | h | h | h | h | h) <;> subst h <;> decide
    · rintro ⟨h1, h2⟩
      have h3 : (1 : Int) ≤ c := h1
      have h4 : c ≤ (6 : Int) := h2
      interval_cases c <;> simp
  refine ⟨?_, String_ne_empty_iff c, hrange, by decide, by decide, by decide, by decide⟩
  intro h
  by_contra hne
  have hin := hrange.mp ((String_ne_empty_iff c).mp hne)
  rcases h with h | h
  · exact absurd hin.1 (Int.not_le.mpr h)
  · exact absurd hin.2 (Int.not_le.mpr h)

theorem String_out_of_range_witness :
    MatcherType.String 7 = "" ∧ MatcherType.String (-5) = "" :=
  ⟨(String_out_of_range 7).1 (Or.inr (by decide)),
    (String_out_of_range (-5)).1 (Or.inl (by decide))⟩

/-- C12, as stated, fails: a holder that already holds `WordsMatcher` and is
handed the scalar `regex` by a second `UnmarshalYAML` call holds
`RegexMatcher` afterwards, with a nil error. -/
theorem UnmarshalYAML_resolved_not_frozen :
    WordsMatcher ∈ GetSupportedMatcherTypes ∧
    MatcherTypeHolder.UnmarshalYAML sampleCaseTable { MatcherType := WordsMatcher }
        (deliver "regex") = ({ MatcherType := RegexMatcher }, none) ∧
    (MatcherTypeHolder.UnmarshalYAML sampleCaseTable { MatcherType := WordsMatcher }
        (deliver "regex")).1.MatcherType ≠
      (MatcherTypeHolder.mk WordsMatcher).MatcherType := by
  decide

/-- C12, amended. For every holder, in particular one that already holds one
of the six kinds, and every `UnmarshalYAML` call with a scalar `s`: when the
call returns an error the holder is as it was; when it returns nil the holder
holds the kind named by `normalizeValue s`, whatever it held before. So the
kind after the call is the kind before the call exactly when the call fails
or `s` normalises to the name of the kind already held. -/
theorem UnmarshalYAML_resolved_overwrite (caseTable : Char → Char)
    (holder : MatcherTypeHolder) (s : GoString) :
    ((MatcherTypeHolder.UnmarshalYAML caseTable holder (deliver s)).2 ≠ none →
      (MatcherTypeHolder.UnmarshalYAML caseTable holder (deliver s)).1 = holder) ∧
    ((MatcherTypeHolder.UnmarshalYAML caseTable holder (deliver s)).2 = none →
      MatcherTypeHolder.String (MatcherTypeHolder.UnmarshalYAML caseTable holder (deliver s)).1
        = normalizeValue caseTable s) ∧
    ((MatcherTypeHolder.UnmarshalYAML caseTable holder (deliver s)).1.MatcherType =
        holder.MatcherType ↔
      ((MatcherTypeHolder.UnmarshalYAML caseTable holder (deliver s)).2 ≠ none ∨
        normalizeValue caseTable s = MatcherType.String holder.MatcherType)) := by
  rcases toMatcherTypes_cases caseTable s with ⟨_, k, hk, hs, hr⟩ | ⟨hn, hr⟩
  · rw [UnmarshalYAML_of_parsed caseTable holder (deliver s) s k rfl hr]
    refine ⟨fun h => absurd rfl h, fun _ => hs, ?_⟩
    constructor
    · intro h
      right
      have h2 : k = holder.MatcherType := h
      rw [← h2]; exact hs.symm
    · rintro (h | h)
      · exact absurd rfl h
      · have hne : MatcherType.String k ≠ "" := (String_ne_empty_iff k).mpr hk
        exact String_injective k holder.MatcherType hne (hs.trans h)
  · rw [UnmarshalYAML_of_refused caseTable holder (deliver s) s _ _ rfl hr]
    refine ⟨fun _ => rfl, fun h => ?_, ?_⟩
    · simp at h
    · constructor
      · intro _; left; simp
      · intro _; rfl

theorem UnmarshalYAML_resolved_overwrite_witness :
    (MatcherTypeHolder.UnmarshalYAML sampleCaseTable { MatcherType := SizeMatcher }
        (deliver "nope")).1 = { MatcherType := SizeMatcher } ∧
    MatcherTypeHolder.String
        (MatcherTypeHolder.UnmarshalYAML sampleCaseTable { MatcherType := SizeMatcher }
          (deliver " DSL ")).1 = normalizeValue sampleCaseTable " DSL " ∧
    (MatcherTypeHolder.UnmarshalYAML sampleCaseTable { MatcherType := SizeMatcher }
        (deliver "SIZE")).1.MatcherType = SizeMatcher :=
  ⟨(UnmarshalYAML_resolved_overwrite sampleCaseTable { MatcherType := SizeMatcher }
      "nope").1 (by decide),
    (UnmarshalYAML_resolved_overwrite sampleCaseTable { MatcherType := SizeMatcher }
      " DSL ").2.1 (by decide),
    (UnmarshalYAML_resolved_overwrite sampleCaseTable { MatcherType := SizeMatcher }
      "SIZE").2.2.mpr (Or.inr (by decide))⟩

/-- C13. The zero-valued holder (code 0) is told apart from every holder of a
kind: 0 is not in `GetSupportedMatcherTypes`; `toMatcherTypes` never returns 0
with a nil error and `UnmarshalYAML` never returns nil leaving the zero
holder; the zero holder encodes to the empty string, which is not the
encoding of any of the six kinds in `String`, `MarshalYAML` or `MarshalJSON`,
and which `toMatcherTypes` refuses. -/
theorem zero_holder_distinguishable (caseTable : Char → Char) :
    (0 : MatcherType) ∉ GetSupportedMatcherTypes ∧
    (∀ (s : GoString) (k : MatcherType), toMatcherTypes caseTable s = (k, none) → k ≠ 0) ∧
    (∀ (holder after : MatcherTypeHolder) (unmarshal : GoString → GoString × Option GoError),
      MatcherTypeHolder.UnmarshalYAML caseTable holder unmarshal = (after, none) →
      after ≠ { MatcherType := 0 }) ∧
    MatcherTypeHolder.String { MatcherType := 0 } = "" ∧
    MatcherTypeHolder.MarshalYAML { MatcherType := 0 } = (GoValue.str "", none) ∧
    MatcherTypeHolder.MarshalJSON { MatcherType := 0 } = ([0x22, 0x22], none) ∧
    (∀ k ∈ GetSupportedMatcherTypes,
      MatcherTypeHolder.String { MatcherType := k } ≠
        MatcherTypeHolder.String { MatcherType := 0 } ∧
      MatcherTypeHolder.MarshalYAML { MatcherType := k } ≠
        MatcherTypeHolder.MarshalYAML { MatcherType := 0 } ∧
      MatcherTypeHolder.MarshalJSON { MatcherType := k } ≠
        MatcherTypeHolder.MarshalJSON { MatcherType := 0 }) ∧
    toMatcherTypes caseTable (MatcherTypeHolder.String { MatcherType := 0 }) =
      (-1, some (errors.New "Invalid matcher type: ")) := by
  have h0 : (0 : MatcherType) ∉ GetSupportedMatcherTypes := by decide
  refine ⟨h0, ?_, ?_, by decide, by decide, by decide, ?_, rfl⟩
  · intro s k h hk0
    rcases toMatcherTypes_code caseTable s with ⟨_, hin⟩ | ⟨he, _⟩
    · rw [h] at hin
      have hin2 : k ∈ GetSupportedMatcherTypes := hin
      rw [hk0] at hin2
      exact h0 hin2
    · rw [h] at he; exact he rfl
  · intro holder after unmarshal h haf
    rcases UnmarshalYAML_cases caseTable holder unmarshal with ⟨e, he⟩ | ⟨s, k, _, hk, _, _, hr⟩
    · rw [he] at h; simp at h
    · rw [hr] at h
      simp only [Prod.mk.injEq, and_true] at h
      rw [haf] at h
      have hk0 : k = 0 := by simpa using h
      rw [hk0] at hk
      exact h0 hk
  · intro k hk
    rcases (mem_supported_iff k).mp hk with h | h | h | h | h | h <;> subst h <;> decide

theorem zero_holder_distinguishable_witness :
    BinaryMatcher ≠ 0 ∧
    MatcherTypeHolder.MarshalJSON { MatcherType := DSLMatcher } ≠
      MatcherTypeHolder.MarshalJSON { MatcherType := 0 } :=
  ⟨(zero_holder_distinguishable sampleCaseTable).2.1 "Binary" BinaryMatcher (by decide),
    ((zero_holder_distinguishable sampleCaseTable).2.2.2.2.2.2.1 DSLMatcher
      (by decide)).2.2⟩

/-- C14. Holding one of the six kinds is an invariant of `UnmarshalYAML`: for
every holder that holds one of them and every callback, the holder after the
call, whether the call returns an error or nil, holds one of them. -/
theorem UnmarshalYAML_keeps_resolved (caseTable : Char → Char) (holder : MatcherTypeHolder)
    (hres : holder.MatcherType ∈ GetSupportedMatcherTypes)
    (unmarshal : GoString → GoString × Option GoError) :
    (MatcherTypeHolder.UnmarshalYAML caseTable holder unmarshal).1.MatcherType ∈
      GetSupportedMatcherTypes := by
  rcases UnmarshalYAML_cases caseTable holder unmarshal with ⟨e, he⟩ | ⟨s, k, _, hk, _, _, hr⟩
  · rw [he]; exact hres
  · rw [hr]; exact hk

theorem UnmarshalYAML_keeps_resolved_witness :
    (MatcherTypeHolder.UnmarshalYAML sampleCaseTable { MatcherType := StatusMatcher }
        (refuse (GoError.decoder "cannot unmarshal !!map into string"))).1.MatcherType ∈
      GetSupportedMatcherTypes ∧
    (MatcherTypeHolder.UnmarshalYAML sampleCaseTable { MatcherType := StatusMatcher }
        (deliver "limit")).1.MatcherType ∈ GetSupportedMatcherTypes ∧
    (MatcherTypeHolder.UnmarshalYAML sampleCaseTable { MatcherType := StatusMatcher }
        (deliver "Word")).1.MatcherType ∈ GetSupportedMatcherTypes :=
  ⟨UnmarshalYAML_keeps_resolved sampleCaseTable { MatcherType := StatusMatcher } (by decide)
      (refuse (GoError.decoder "cannot unmarshal !!map into string")),
    UnmarshalYAML_keeps_resolved sampleCaseTable { MatcherType := StatusMatcher } (by decide)
      (deliver "limit"),
    UnmarshalYAML_keeps_resolved sampleCaseTable { MatcherType := StatusMatcher } (by decide)
      (deliver "Word")⟩

/-- C15. Input that is not recognised is never given a default kind, and the
failure code is apart from the kinds: for every `s`, when `normalizeValue s`
is none of the six canonical names `toMatcherTypes s` returns `-1` with the
error naming `s`, and an error is returned in no other case; the error is nil
exactly when the code returned is one of the six kinds, and non-nil exactly
when the code returned is `-1`; `-1` is not a kind, has the empty name, and is
not the zero value. -/
theorem toMatcherTypes_no_default (caseTable : Char → Char) (s : GoString) :
    (normalizeValue caseTable s ∉ canonicalNames →
      toMatcherTypes caseTable s =
        (-1, some (errors.New ("Invalid matcher type: " ++ s))) ∧
      (toMatcherTypes caseTable s).1 ∉ GetSupportedMatcherTypes) ∧
    (normalizeValue caseTable s ∈ canonicalNames →
      (toMatcherTypes caseTable s).2 = none ∧
      (toMatcherTypes caseTable s).1 ∈ GetSupportedMatcherTypes ∧
      MatcherType.String (toMatcherTypes caseTable s).1 = normalizeValue caseTable s) ∧
    ((toMatcherTypes caseTable s).2 ≠ none ↔ normalizeValue caseTable s ∉ canonicalNames) ∧
    ((toMatcherTypes caseTable s).2 = none ↔
      (toMatcherTypes caseTable s).1 ∈ GetSupportedMatcherTypes) ∧
    ((toMatcherTypes caseTable s).2 ≠ none ↔ (toMatcherTypes caseTable s).1 = -1) ∧
    (-1 : MatcherType) ∉ GetSupportedMatcherTypes ∧
    (-1 : MatcherType) ∉ MatcherTypes.map Prod.fst ∧
    MatcherType.String (-1) = "" ∧
    (-1 : MatcherType) ≠ 0 ∧
    (-1 : MatcherType) ≠ (MatcherTypeHolder.mk 0).MatcherType := by
  have hm1 : (-1 : MatcherType) ∉ GetSupportedMatcherTypes := by decide
  refine ⟨?_, ?_, ?_, ?_, ?_, hm1, by decide, by decide, by decide, by decide⟩
  · intro hn
    rcases toMatcherTypes_cases caseTable s with ⟨hin, _⟩ | ⟨_, hr⟩
    · exact absurd hin hn
    · rw [hr]; exact ⟨rfl, hm1⟩
  · intro hin
    rcases toMatcherTypes_cases caseTable s with ⟨_, k, hk, hs, hr⟩ | ⟨hn, _⟩
    · rw [hr]; exact ⟨rfl, hk, hs⟩
    · exact absurd hin hn
  · rcases toMatcherTypes_cases caseTable s with ⟨hin, k, _, _, hr⟩ | ⟨hn, hr⟩
    · rw [hr]
      exact ⟨fun h => absurd rfl h, fun h => absurd hin h⟩
    · rw [hr]
      exact ⟨fun _ => hn, fun _ => by simp⟩
  · rcases toMatcherTypes_code caseTable s with ⟨he, hin⟩ | ⟨he, hc⟩
    · exact ⟨fun _ => hin, fun _ => he⟩
    · constructor
      · intro h; exact absurd h he
      · intro h; rw [hc] at h; exact absurd h hm1
  · rcases toMatcherTypes_code caseTable s with ⟨he, hin⟩ | ⟨he, hc⟩
    · constructor
      · intro h; exact absurd he h
      · intro h; rw [h] at hin; exact absurd hin hm1
    · exact ⟨fun _ => hc, fun _ => he⟩

theorem toMatcherTypes_no_default_witness :
    toMatcherTypes sampleCaseTable "Wordz" =
      (-1, some (GoError.errorString "Invalid matcher type: Wordz")) ∧
    (toMatcherTypes sampleCaseTable "Wordz").1 ∉ GetSupportedMatcherTypes ∧
    (toMatcherTypes sampleCaseTable "").2 ≠ none ∧
    (toMatcherTypes sampleCaseTable " Status").2 = none ∧
    MatcherType.String (toMatcherTypes sampleCaseTable " Status").1 = "status" :=
  ⟨((toMatcherTypes_no_default sampleCaseTable "Wordz").1 (by decide)).1,
    ((toMatcherTypes_no_default sampleCaseTable "Wordz").1 (by decide)).2,
    (toMatcherTypes_no_default sampleCaseTable "").2.2.1.mpr (by decide),
    ((toMatcherTypes_no_default sampleCaseTable " Status").2.1 (by decide)).1,
    ((toMatcherTypes_no_default sampleCaseTable " Status").2.1 (by decide)).2.2⟩

/-- C16. The closing constant `limit` (code 7) is never a kind: it is not in
`GetSupportedMatcherTypes`, it is not a key of `MatcherTypes` and its name is
the empty string, neither it nor its name is in the schema `Enum`, and no
input makes `toMatcherTypes` return it. -/
theorem limit_never_valid (caseTable : Char → Char) (s : GoString)
    (holder : MatcherTypeHolder) :
    limit = 7 ∧
    (∀ k ∈ GetSupportedMatcherTypes, k < limit) ∧
    limit ∉ GetSupportedMatcherTypes ∧
    limit ∉ MatcherTypes.map Prod.fst ∧
    MatcherTypes.lookup limit = none ∧
    MatcherType.String limit = "" ∧
    GoValue.int limit ∉ (MatcherTypeHolder.JSONSchemaType holder).Enum ∧
    GoValue.str (toString limit) ∉ (MatcherTypeHolder.JSONSchemaType holder).Enum ∧
    GoValue.str (MatcherType.String limit) ∉ (MatcherTypeHolder.JSONSchemaType holder).Enum ∧
    (toMatcherTypes caseTable s).1 ≠ limit := by
  have hl : limit ∉ GetSupportedMatcherTypes := by decide
  have hsch : MatcherTypeHolder.JSONSchemaType holder =
      MatcherTypeHolder.JSONSchemaType { MatcherType := 0 } := rfl
  rw [hsch]
  refine ⟨by decide, by decide, hl, by decide, by decide, by decide, by decide, by decide,
    by decide, ?_⟩
  rcases toMatcherTypes_code caseTable s with ⟨_, hin⟩ | ⟨_, hc⟩
  · intro h; rw [h] at hin; exact hl hin
  · rw [hc]; decide

theorem limit_never_valid_witness :
    DSLMatcher < limit ∧ (toMatcherTypes sampleCaseTable "limit").1 ≠ limit :=
  ⟨(limit_never_valid sampleCaseTable "limit" { MatcherType := 0 }).2.1 DSLMatcher
      (by decide),
    (limit_never_valid sampleCaseTable "limit" { MatcherType := 0 }).2.2.2.2.2.2.2.2.2⟩

/-! ## Order of normalisation and order of the scan -/

/-- C17. The order of the specification (trim, then lower) and the order of
the code (lower, then trim) agree: for every string `s`,
`normalizeValue s = TrimSpace (ToLower s)` equals `ToLower (TrimSpace s)`, as
long as the case table of the toolchain maps white space to white space and
nothing else to white space. -/
theorem normalizeValue_order_agrees (caseTable : Char → Char)
    (htable : ∀ c, 0x80 ≤ c.toNat → isSpace (caseTable c) = isSpace c) (s : GoString) :
    normalizeValue caseTable s = strings.TrimSpace (strings.ToLower caseTable s) ∧
    strings.TrimSpace (strings.ToLower caseTable s) =
      strings.ToLower caseTable (strings.TrimSpace s) ∧
    normalizeValue caseTable s = normalizeValueSpec caseTable s := by
  have h : strings.TrimSpace (strings.ToLower caseTable s) =
      strings.ToLower caseTable (strings.TrimSpace s) := by
    apply String.ext
    rw [ToLower_data]
    simp only [strings.TrimSpace, ToLower_data]
    exact trim_map _ (isSpace_unicodeToLower_eq caseTable htable) s.data
  exact ⟨rfl, h, h⟩

theorem normalizeValue_order_agrees_witness :
    normalizeValue sampleCaseTable "\u00a0 \u00c9t\u00c9 \u2003" =
      normalizeValueSpec sampleCaseTable "\u00a0 \u00c9t\u00c9 \u2003" ∧
    normalizeValueSpec sampleCaseTable "\u00a0 \u00c9t\u00c9 \u2003" = "\u00e9t\u00e9" :=
  ⟨(normalizeValue_order_agrees sampleCaseTable sampleCaseTable_isSpace
      "\u00a0 \u00c9t\u00c9 \u2003").2.2, by decide⟩

/-- C18. `toMatcherTypes` does not depend on the order in which the `range`
visits the map: for every input `s` and every two arrangements of the six
`MatcherTypes` entries, the scan returns the same kind and error, which is
what the scan in the order of the literal returns; and the scan equals the
lookup in a reverse index built once from the entries in any arrangement. -/
theorem toMatcherTypes_order_independent (caseTable : Char → Char) (s : GoString)
    (order1 order2 : List (MatcherType × GoString))
    (h1 : order1.Perm MatcherTypes) (h2 : order2.Perm MatcherTypes) :
    toMatcherTypesIn order1 caseTable s = toMatcherTypesIn order2 caseTable s ∧
    toMatcherTypesIn order1 caseTable s = toMatcherTypes caseTable s ∧
    toMatcherTypesIn order1 caseTable s =
      toMatcherTypesIndexed (reverseIndex order2) caseTable s := by
  have hnd : (MatcherTypes.map Prod.snd).Nodup := by decide
  have e1 := rangeMatch_perm (normalizeValue caseTable s) order1 MatcherTypes h1 hnd
  have e2 := rangeMatch_perm (normalizeValue caseTable s) order2 MatcherTypes h2 hnd
  refine ⟨?_, ?_, ?_⟩
  · simp only [toMatcherTypesIn, e1, e2]
  · simp only [toMatcherTypes, toMatcherTypesIn, e1]
  · simp only [toMatcherTypesIn, toMatcherTypesIndexed, lookup_reverseIndex, e1, e2]

theorem toMatcherTypes_order_independent_witness :
    toMatcherTypesIn MatcherTypes.reverse sampleCaseTable " Regex" = (RegexMatcher, none) ∧
    toMatcherTypesIn MatcherTypes.reverse sampleCaseTable " Regex" =
      toMatcherTypesIndexed (reverseIndex (MatcherTypes.rotate 2)) sampleCaseTable " Regex" :=
  ⟨((toMatcherTypes_order_independent sampleCaseTable " Regex" MatcherTypes.reverse
      (MatcherTypes.rotate 2) (List.reverse_perm _) (List.rotate_perm _ _)).2.1).trans
      (by decide),
    (toMatcherTypes_order_independent sampleCaseTable " Regex" MatcherTypes.reverse
      (MatcherTypes.rotate 2) (List.reverse_perm _) (List.rotate_perm _ _)).2.2⟩

end Matchers
